import Mathlib

/-!
Shallow embedding of the core simulation of `src/main.rs` (a top-down
"survive and collect" arcade game), together with theorems settling the
frozen specification claims.  The `f32` arithmetic of the source is
idealised as real arithmetic; `i8` counters are idealised as integers
(all reachable counter values in the verified scenarios stay far from
the `i8` bounds).  Each Rust function used by a claim is translated to a
Lean definition of the same name.
-/

namespace Gorbulet

noncomputable section

/-! ## Constants (from the top of `src/main.rs`) -/

def PLAYER_RADIUS : ℝ := 16
def PLAYER_HEALTH : ℤ := 3
def PLAYER_INVINCIBILITY_TIME : ℝ := 2
def PLAYER_ACCEL : ℝ := 900
def PLAYER_MAX_SPEED : ℝ := 300

def HIT_KNOCKBACK : ℝ := 700
def HIT_DECAY_RATE : ℝ := -2 / 1000
def HIT_TRAUMA : ℝ := 70

def ENEMY_RADIUS : ℝ := 14
def COIN_RADIUS : ℝ := 8

def HEALTH_MULTIPLE : ℤ := 8

def SCREEN_SHAKE_X_FREQUENCY : ℝ := 10
def SCREEN_SHAKE_Y_FREQUENCY : ℝ := 1
def SCREEN_SHAKE_LERP : ℝ := 15 / 100

/-! ## Vectors

`bevy`/`glam` `Vec3` values, modelled with real components.  Only the
operations the source uses are defined: componentwise addition,
subtraction, scalar multiplication, dot product, squared length,
length, squared distance, distance, and (try-)normalisation.
-/

structure Vec3 where
  x : ℝ
  y : ℝ
  z : ℝ

namespace Vec3

def zero : Vec3 := ⟨0, 0, 0⟩

def add (a b : Vec3) : Vec3 := ⟨a.x + b.x, a.y + b.y, a.z + b.z⟩

def sub (a b : Vec3) : Vec3 := ⟨a.x - b.x, a.y - b.y, a.z - b.z⟩

def smul (c : ℝ) (a : Vec3) : Vec3 := ⟨c * a.x, c * a.y, c * a.z⟩

def dot (a b : Vec3) : ℝ := a.x * b.x + a.y * b.y + a.z * b.z

def normSq (a : Vec3) : ℝ := dot a a

end Vec3

def norm3 (a : Vec3) : ℝ := Real.sqrt a.normSq

/-- `Vec3::distance_squared` of glam: squared length of the difference. -/
def distSq (a b : Vec3) : ℝ := (Vec3.sub a b).normSq

/-- `Vec3::distance` of glam. -/
def dist3 (a b : Vec3) : ℝ := Real.sqrt (distSq a b)

/-- `Vec3::try_normalize` of glam: `none` exactly on the zero vector
(the idealisation of "zero length or non-finite"). -/
def try_normalize (v : Vec3) : Option Vec3 :=
  if v.normSq = 0 then none else some (Vec3.smul (norm3 v)⁻¹ v)

/-- `Vec3::normalize_or_zero` of glam. -/
def normalize_or_zero (v : Vec3) : Vec3 :=
  if v.normSq = 0 then Vec3.zero else Vec3.smul (norm3 v)⁻¹ v

/-! ## Progression state (`GameInfo`, `LastScore`) -/

structure GameInfo where
  points : ℤ
  health : ℤ
  is_player_invincible : Bool
deriving DecidableEq

/-- `GameInfo::add_health`: saturating add against the max health of 5. -/
def GameInfo.add_health (g : GameInfo) (health : ℤ) : GameInfo :=
  { g with health := min (g.health + health) 5 }

/-- `GameInfo::default`: `points = 0`, `health = PLAYER_HEALTH`, not invincible. -/
def GameInfo.start : GameInfo := ⟨0, PLAYER_HEALTH, false⟩

/-- Result of one `hit_coin` event: the updated `GameInfo`, whether a
health point (rather than a plain pickup) was granted, and how many
pursuers `spawn_enemy` was invoked for (the source calls it exactly
once, unconditionally). -/
structure HitCoinResult where
  info : GameInfo
  healthGranted : Bool
  enemiesSpawned : ℕ
deriving DecidableEq

/-- The `hit_coin` system of `src/main.rs` (score/health/spawn part):
increment `points`; grant a health point exactly when
`points % HEALTH_MULTIPLE == 1 && points != 1`; spawn one enemy. -/
def hit_coin (g : GameInfo) : HitCoinResult :=
  let g1 : GameInfo := { g with points := g.points + 1 }
  if g1.points % HEALTH_MULTIPLE = 1 ∧ g1.points ≠ 1 then
    ⟨g1.add_health 1, true, 1⟩
  else
    ⟨g1, false, 1⟩

/-- Deliver `n` consecutive `HitCoin` events, returning the final
`GameInfo` and the total number of pursuers spawned. -/
def run_coins : ℕ → GameInfo → GameInfo × ℕ
  | 0, g => (g, 0)
  | n + 1, g =>
      let r := hit_coin g
      let rest := run_coins n r.info
      (rest.1, r.enemiesSpawned + rest.2)

/-! ## Collision detection (`enemy_collision`, `coin_collision`) -/

/-- Circle-circle overlap as the source tests it: squared centre
distance strictly below the squared radius sum. -/
def collides (p q : Vec3) (r1 r2 : ℝ) : Prop :=
  distSq p q < (r1 + r2) ^ 2

/-- The scan loop of `enemy_collision`: walk the pursuer list and stop
at the first overlap (`break` in the source). -/
def hitScan (ppos : Vec3) : List Vec3 → Bool
  | [] => false
  | e :: rest =>
      if distSq ppos e < (PLAYER_RADIUS + ENEMY_RADIUS) ^ 2 then true
      else hitScan ppos rest

/-- The `enemy_collision` system: number of `HitPlayer` events emitted
in one tick, given the invincibility flag, the player position and the
pursuer positions.  The source returns early while invincible and sends
at most one event (`send_default` guarded by the scan result). -/
def enemy_collision (is_player_invincible : Bool) (ppos : Vec3)
    (enemies : List Vec3) : ℕ :=
  if is_player_invincible then 0
  else if hitScan ppos enemies then 1 else 0

/-! ## Screen shake (`ScreenShake`, `screen_shake`, `lerp`) -/

/-- `lerp` of `src/main.rs`. -/
def lerp (a b t : ℝ) : ℝ := a + t * (b - a)

/-- The `ScreenShake` component plus the camera translation it drives
(x/y offset of the camera transform). -/
structure ShakeState where
  trauma : ℝ
  time : ℝ
  offX : ℝ
  offY : ℝ

/-- `ScreenShake::add_trauma`. -/
def add_trauma (s : ShakeState) (trauma : ℝ) : ShakeState :=
  { s with trauma := s.trauma + trauma }

/-- The `screen_shake` system, one tick: on `trauma <= 0` reset the
elapsed time and return (camera offset untouched); otherwise decay
trauma by `lerp(trauma, 0, SCREEN_SHAKE_LERP)`, advance the elapsed
time by `dt`, and set the camera offset from the new trauma and time. -/
def screen_shake (s : ShakeState) (dt : ℝ) : ShakeState :=
  if s.trauma ≤ 0 then { s with time := 0 }
  else
    let trauma := lerp s.trauma 0 SCREEN_SHAKE_LERP
    let time := s.time + dt
    { trauma := trauma
      time := time
      offX := trauma * Real.sin (2 * Real.pi * SCREEN_SHAKE_X_FREQUENCY * time)
      offY := trauma * Real.sin (2 * Real.pi * SCREEN_SHAKE_Y_FREQUENCY * time) }

/-- The camera starts with no trauma, zero elapsed time and an
unshaken transform. -/
def ShakeState.start : ShakeState := ⟨0, 0, 0, 0⟩

/-- Shake states reachable in a run: the initial camera state, any
number of `screen_shake` ticks, and `add_trauma HIT_TRAUMA` calls
(the only `add_trauma` call site, in `hit_player`). -/
inductive ShakeReachable : ShakeState → Prop
  | start : ShakeReachable ShakeState.start
  | tick (s : ShakeState) (dt : ℝ) : ShakeReachable s → ShakeReachable (screen_shake s dt)
  | hit (s : ShakeState) : ShakeReachable s → ShakeReachable (add_trauma s HIT_TRAUMA)

/-! ## Player hit handling (`hit_player`, `cleanup_game`) -/

/-- A pursuer as `hit_player` sees it: its transform translation and
its `Velocity` component. -/
structure EnemyState where
  pos : Vec3
  vel : Vec3

/-- The in-round state touched by `hit_player`: the `GameInfo`
resource, the invincibility timer (elapsed seconds; `reset` puts it
back to 0 so the full `PLAYER_INVINCIBILITY_TIME` remains), the player
transform and velocity, the pursuers, and the screen-shake camera. -/
structure PlayState where
  info : GameInfo
  timerElapsed : ℝ
  playerPos : Vec3
  playerVel : Vec3
  enemies : List EnemyState
  shake : ShakeState

/-- The knockback impulse magnitude of `hit_player` at a given centre
distance from the player. -/
def knockback_speed (distance : ℝ) : ℝ :=
  HIT_KNOCKBACK * Real.exp (HIT_DECAY_RATE * (distance - (PLAYER_RADIUS + ENEMY_RADIUS)))

/-- The per-pursuer knockback of `hit_player`: shove directly away from
the player, added straight onto the pursuer's velocity. -/
def knockback_enemy (player_pos : Vec3) (e : EnemyState) : EnemyState :=
  let direction := normalize_or_zero (Vec3.sub e.pos player_pos)
  let distance := dist3 e.pos player_pos
  ⟨e.pos, Vec3.add e.vel (Vec3.smul (knockback_speed distance) direction)⟩

/-- The `hit_player` system, processing one `HitPlayer` event:
decrement health, set invincibility, reset the invincibility timer,
add trauma, request the `Menu` state when health has dropped to 0 or
below (the returned flag), and knock back every pursuer.  The player's
own velocity is not touched. -/
def hit_player (s : PlayState) : PlayState × Bool :=
  let info := { s.info with health := s.info.health - 1, is_player_invincible := true }
  let toMenu : Bool := decide (info.health ≤ 0)
  ({ s with
      info := info
      timerElapsed := 0
      shake := add_trauma s.shake HIT_TRAUMA
      enemies := s.enemies.map (knockback_enemy s.playerPos) }, toMenu)

/-- `cleanup_game` (runs on `Playing → Menu`): record the final score
into the `LastScore` resource. -/
def cleanup_game (info : GameInfo) (_lastScore : Option ℤ) : Option ℤ :=
  some info.points

/-! ## Movement (`vec3_move_toward`, `get_direction`, `move_player`) -/

/-- `vec3_move_toward` of `src/main.rs`. -/
def vec3_move_toward (f t : Vec3) (distance : ℝ) : Vec3 :=
  if distSq f t ≤ distance ^ 2 then t
  else
    match try_normalize (Vec3.sub t f) with
    | some direction => Vec3.add f (Vec3.smul distance direction)
    | none => f

/-- `get_direction`: accumulate the four pressed directions into a raw
vector, then `normalize_or_zero` it. -/
def get_direction (up down lft rgt : Bool) : Vec3 :=
  let d0 : Vec3 := Vec3.zero
  let d1 := if up then { d0 with y := d0.y + 1 } else d0
  let d2 := if down then { d1 with y := d1.y - 1 } else d1
  let d3 := if lft then { d2 with x := d2.x - 1 } else d2
  let d4 := if rgt then { d3 with x := d3.x + 1 } else d3
  normalize_or_zero d4

/-- The velocity update of the `move_player` system: move the current
velocity toward the input direction times `PLAYER_MAX_SPEED`, by at
most `PLAYER_ACCEL * dt`. -/
def move_player_velocity (v : Vec3) (up down lft rgt : Bool) (dt : ℝ) : Vec3 :=
  vec3_move_toward v (Vec3.smul PLAYER_MAX_SPEED (get_direction up down lft rgt))
    (PLAYER_ACCEL * dt)

/-- Player velocities reachable in a round: the player spawns with
`Velocity(Vec3::ZERO)` and only `move_player` writes its velocity
(each tick with a nonnegative frame delta). -/
inductive PlayerVelReachable : Vec3 → Prop
  | spawn : PlayerVelReachable Vec3.zero
  | tick (v : Vec3) (up down lft rgt : Bool) (dt : ℝ) (hdt : 0 ≤ dt) :
      PlayerVelReachable v → PlayerVelReachable (move_player_velocity v up down lft rgt dt)

/-! ## Pursuer tracking (`move_enemy`, `wraparound_tracking_position`) -/

/-- `wraparound_tracking_position` of `src/main.rs`. -/
def wraparound_tracking_position (f t : Vec3) (width height : ℝ) : Vec3 :=
  let distance_x := t.x - f.x
  let distance_y := t.y - f.y
  let position_x :=
    if |distance_x| > width / 2 then
      (if distance_x < 0 then t.x + width else t.x - width)
    else t.x
  let position_y :=
    if |distance_y| > height / 2 then
      (if distance_y < 0 then t.y + height else t.y - height)
    else t.y
  ⟨position_x, position_y, 0⟩

/-- The tracking target computed in `move_enemy`: lead the player by
`future_prediction`, then wrap it toroidally when the pursuer has
`wraparound_follow` set. -/
def track_target (wraparound_follow : Bool) (enemy_pos player_pos player_vel : Vec3)
    (future_prediction width height : ℝ) : Vec3 :=
  let track_position := Vec3.add player_pos (Vec3.smul future_prediction player_vel)
  if wraparound_follow then
    wraparound_tracking_position enemy_pos track_position width height
  else track_position

/-- The linear lead interception point of `move_enemy`:
`player position + player velocity × future_prediction`. -/
def interception_point (player_pos player_vel : Vec3) (future_prediction : ℝ) : Vec3 :=
  Vec3.add player_pos (Vec3.smul future_prediction player_vel)

/-! ## Boundary wraparound (`wraparound`) -/

/-- The `wraparound` system applied to one transform translation, with
the entity's `Wraparound` radius and the window size. -/
def wraparound (t : Vec3) (radius width height : ℝ) : Vec3 :=
  let lft := -width / 2 - radius
  let rgt := -lft
  let top := height / 2 + radius
  let bottom := -top
  let x := if t.x < lft then rgt else if t.x > rgt then lft else t.x
  let y := if t.y > top then bottom else if t.y < bottom then top else t.y
  ⟨x, y, t.z⟩

/-! # Helper lemmas -/

theorem normSq_nonneg (a : Vec3) : 0 ≤ a.normSq := by
  have hx := sq_nonneg a.x
  have hy := sq_nonneg a.y
  have hz := sq_nonneg a.z
  simp only [Vec3.normSq, Vec3.dot]
  nlinarith

theorem normSq_eq_zero_iff (a : Vec3) : a.normSq = 0 ↔ a = Vec3.zero := by
  rcases a with ⟨x, y, z⟩
  simp only [Vec3.normSq, Vec3.dot, Vec3.zero, Vec3.mk.injEq]
  constructor
  · intro h
    refine ⟨?_, ?_, ?_⟩ <;> nlinarith [sq_nonneg x, sq_nonneg y, sq_nonneg z]
  · rintro ⟨hx, hy, hz⟩
    simp [hx, hy, hz]

theorem norm3_nonneg (a : Vec3) : 0 ≤ norm3 a := Real.sqrt_nonneg _

theorem norm3_sq (a : Vec3) : norm3 a ^ 2 = a.normSq :=
  Real.sq_sqrt (normSq_nonneg a)

theorem norm3_eq_zero_iff (a : Vec3) : norm3 a = 0 ↔ a = Vec3.zero := by
  rw [norm3, Real.sqrt_eq_zero (normSq_nonneg a), normSq_eq_zero_iff]

theorem norm3_pos_of_ne_zero {a : Vec3} (h : a ≠ Vec3.zero) : 0 < norm3 a := by
  rcases lt_or_eq_of_le (norm3_nonneg a) with hlt | heq
  · exact hlt
  · exact absurd ((norm3_eq_zero_iff a).mp heq.symm) h

theorem normSq_smul (c : ℝ) (a : Vec3) :
    (Vec3.smul c a).normSq = c ^ 2 * a.normSq := by
  simp only [Vec3.smul, Vec3.normSq, Vec3.dot]
  ring

theorem norm3_smul (c : ℝ) (a : Vec3) : norm3 (Vec3.smul c a) = |c| * norm3 a := by
  rw [norm3, normSq_smul, Real.sqrt_mul (sq_nonneg c), Real.sqrt_sq_eq_abs, norm3]

theorem norm3_zero : norm3 Vec3.zero = 0 := by
  simp [norm3, Vec3.normSq, Vec3.dot, Vec3.zero]

/-- Cauchy–Schwarz for the three-component dot product. -/
theorem dot_le_norm3_mul_norm3 (a b : Vec3) : Vec3.dot a b ≤ norm3 a * norm3 b := by
  have hsq : (Vec3.dot a b) ^ 2 ≤ a.normSq * b.normSq := by
    simp only [Vec3.normSq, Vec3.dot]
    nlinarith [sq_nonneg (a.x * b.y - a.y * b.x), sq_nonneg (a.x * b.z - a.z * b.x),
      sq_nonneg (a.y * b.z - a.z * b.y)]
  calc Vec3.dot a b ≤ |Vec3.dot a b| := le_abs_self _
    _ = Real.sqrt ((Vec3.dot a b) ^ 2) := (Real.sqrt_sq_eq_abs _).symm
    _ ≤ Real.sqrt (a.normSq * b.normSq) := Real.sqrt_le_sqrt hsq
    _ = norm3 a * norm3 b := by
        rw [norm3, norm3, Real.sqrt_mul (normSq_nonneg a)]

/-- Triangle inequality for the three-component Euclidean length. -/
theorem norm3_add_le (a b : Vec3) : norm3 (Vec3.add a b) ≤ norm3 a + norm3 b := by
  have hexp : (Vec3.add a b).normSq = a.normSq + 2 * Vec3.dot a b + b.normSq := by
    simp only [Vec3.add, Vec3.normSq, Vec3.dot]
    ring
  have hcs := dot_le_norm3_mul_norm3 a b
  have ha := norm3_sq a
  have hb := norm3_sq b
  have hle : (Vec3.add a b).normSq ≤ (norm3 a + norm3 b) ^ 2 := by
    rw [hexp]
    nlinarith
  calc norm3 (Vec3.add a b) = Real.sqrt (Vec3.add a b).normSq := rfl
    _ ≤ Real.sqrt ((norm3 a + norm3 b) ^ 2) := Real.sqrt_le_sqrt hle
    _ = norm3 a + norm3 b := by
        rw [Real.sqrt_sq (add_nonneg (norm3_nonneg a) (norm3_nonneg b))]

theorem distSq_comm (a b : Vec3) : distSq a b = distSq b a := by
  simp only [distSq, Vec3.sub, Vec3.normSq, Vec3.dot]
  ring

theorem distSq_nonneg (a b : Vec3) : 0 ≤ distSq a b := normSq_nonneg _

theorem dist3_nonneg (a b : Vec3) : 0 ≤ dist3 a b := Real.sqrt_nonneg _

theorem dist3_eq_norm3_sub (a b : Vec3) : dist3 a b = norm3 (Vec3.sub b a) := by
  rw [dist3, distSq_comm, norm3, distSq]

theorem norm3_normalize_or_zero_le_one (v : Vec3) : norm3 (normalize_or_zero v) ≤ 1 := by
  unfold normalize_or_zero
  split_ifs with h
  · rw [norm3_zero]; norm_num
  · have hv : v ≠ Vec3.zero := fun hz => h ((normSq_eq_zero_iff v).mpr hz)
    have hpos := norm3_pos_of_ne_zero hv
    rw [norm3_smul, abs_of_pos (inv_pos.mpr hpos), inv_mul_cancel₀ (ne_of_gt hpos)]

theorem norm3_normalize_or_zero_of_ne_zero {v : Vec3} (h : v ≠ Vec3.zero) :
    norm3 (normalize_or_zero v) = 1 := by
  have hns : v.normSq ≠ 0 := fun hz => h ((normSq_eq_zero_iff v).mp hz)
  have hpos := norm3_pos_of_ne_zero h
  unfold normalize_or_zero
  rw [if_neg hns, norm3_smul, abs_of_pos (inv_pos.mpr hpos),
    inv_mul_cancel₀ (ne_of_gt hpos)]

theorem sub_eq_zero_iff3 (a b : Vec3) : Vec3.sub a b = Vec3.zero ↔ a = b := by
  rcases a with ⟨ax, ay, az⟩
  rcases b with ⟨bx, by', bz⟩
  simp only [Vec3.sub, Vec3.zero, Vec3.mk.injEq, sub_eq_zero]

/-- The first-match scan of `enemy_collision` fires exactly when some
pursuer in the list overlaps the player. -/
theorem hitScan_eq_true_iff (ppos : Vec3) (es : List Vec3) :
    hitScan ppos es = true ↔
      ∃ e ∈ es, collides ppos e PLAYER_RADIUS ENEMY_RADIUS := by
  induction es with
  | nil => simp [hitScan]
  | cons e rest ih =>
      by_cases h : distSq ppos e < (PLAYER_RADIUS + ENEMY_RADIUS) ^ 2
      · simp only [hitScan, if_pos h]
        constructor
        · intro _
          exact ⟨e, List.mem_cons_self e rest, h⟩
        · intro _
          trivial
      · simp only [hitScan, if_neg h]
        rw [ih]
        constructor
        · rintro ⟨a, ha, hc⟩
          exact ⟨a, List.mem_cons_of_mem e ha, hc⟩
        · rintro ⟨a, ha, hc⟩
          rcases List.mem_cons.mp ha with rfl | ha2
          · exact absurd hc h
          · exact ⟨a, ha2, hc⟩

theorem dist3_sq (a b : Vec3) : dist3 a b ^ 2 = distSq a b :=
  Real.sq_sqrt (distSq_nonneg a b)

theorem distSq_self (a : Vec3) : distSq a a = 0 := by
  simp [distSq, Vec3.sub, Vec3.normSq, Vec3.dot]

theorem dist3_le_iff {d : ℝ} (hd : 0 ≤ d) (a b : Vec3) :
    dist3 a b ≤ d ↔ distSq a b ≤ d ^ 2 := by
  constructor
  · intro h
    rw [← dist3_sq a b]
    exact pow_le_pow_left₀ (dist3_nonneg a b) h 2
  · intro h
    calc dist3 a b = Real.sqrt (distSq a b) := rfl
      _ ≤ Real.sqrt (d ^ 2) := Real.sqrt_le_sqrt h
      _ = d := Real.sqrt_sq hd

theorem normSq_sub_swap (f t : Vec3) : (Vec3.sub t f).normSq = distSq f t := by
  simp only [distSq, Vec3.sub, Vec3.normSq, Vec3.dot]
  ring

theorem sub_add_cancel3 (f w : Vec3) : Vec3.sub (Vec3.add f w) f = w := by
  rcases f with ⟨fx, fy, fz⟩
  rcases w with ⟨wx, wy, wz⟩
  simp only [Vec3.add, Vec3.sub, Vec3.mk.injEq]
  refine ⟨by ring, by ring, by ring⟩

theorem smul_smul3 (a b : ℝ) (v : Vec3) :
    Vec3.smul a (Vec3.smul b v) = Vec3.smul (a * b) v := by
  rcases v with ⟨vx, vy, vz⟩
  simp only [Vec3.smul, Vec3.mk.injEq]
  refine ⟨by ring, by ring, by ring⟩

/-- On the far branch (`distance² < squared centre distance`),
`vec3_move_toward` lands at `from + (d / |to-from|) · (to - from)`. -/
theorem move_toward_far {f t : Vec3} {d : ℝ}
    (hfar : ¬ distSq f t ≤ d ^ 2) :
    vec3_move_toward f t d =
      Vec3.add f (Vec3.smul (d / dist3 f t) (Vec3.sub t f)) := by
  have hpos : 0 < distSq f t := lt_of_le_of_lt (sq_nonneg d) (lt_of_not_le hfar)
  have hne : (Vec3.sub t f).normSq ≠ 0 := by
    rw [normSq_sub_swap]
    exact ne_of_gt hpos
  have hnorm : norm3 (Vec3.sub t f) = dist3 f t := (dist3_eq_norm3_sub f t).symm
  have hsome : try_normalize (Vec3.sub t f) =
      some (Vec3.smul (norm3 (Vec3.sub t f))⁻¹ (Vec3.sub t f)) := by
    unfold try_normalize
    rw [if_neg hne]
  unfold vec3_move_toward
  rw [if_neg hfar, hsome]
  dsimp only
  rw [smul_smul3, hnorm, div_eq_mul_inv]

/-- Closed form of one `hit_coin` event. -/
theorem hit_coin_eq (g : GameInfo) :
    hit_coin g =
      if (g.points + 1) % HEALTH_MULTIPLE = 1 ∧ g.points + 1 ≠ 1 then
        ⟨⟨g.points + 1, min (g.health + 1) 5, g.is_player_invincible⟩, true, 1⟩
      else
        ⟨⟨g.points + 1, g.health, g.is_player_invincible⟩, false, 1⟩ := by
  rcases g with ⟨p, hl, i⟩
  rfl

/-! # Claim theorems -/

/-- C1 (counterexample): delivering eight consecutive `PickupCollected`
events from `score = 0, health = 3` leaves `health = 3`, not `4` as the
claim states: the source grants health at `score % 8 == 1` (scores 9,
17, ...), not at positive multiples of 8.  In particular the event that
raises the score to 8 — a positive multiple of the health interval,
different from the excluded edge case 1 — grants no health point. -/
theorem hit_coin_claim_counterexample :
    (run_coins 8 GameInfo.start).1.points = 8 ∧
    (run_coins 8 GameInfo.start).1.health = 3 ∧
    ¬ (run_coins 8 GameInfo.start).1.health = 4 ∧
    (8 : ℤ) % HEALTH_MULTIPLE = 0 ∧ (8 : ℤ) ≠ 1 ∧
    (hit_coin ⟨7, 3, false⟩).healthGranted = false := by
  decide

/-- C1 (amended): on each `PickupCollected` event the score increments
by 1, and a health point (`health = min(health+1, 5)`) is granted
instead of a plain pickup exactly when the new score satisfies
`score % 8 == 1` and `score ≠ 1` (i.e. one past each positive multiple
of the health interval 8); starting from `score = 0, health = 3`, eight
consecutive events yield `score = 8` and `health = 3` with exactly one
pursuer spawned per collection (8 total), and the first health grant
occurs on the ninth event, yielding `score = 9, health = 4`. -/
theorem hit_coin_amended (g : GameInfo) :
    (hit_coin g).info.points = g.points + 1 ∧
    ((hit_coin g).healthGranted = true ↔
      ((g.points + 1) % HEALTH_MULTIPLE = 1 ∧ g.points + 1 ≠ 1)) ∧
    ((hit_coin g).healthGranted = true →
      (hit_coin g).info.health = min (g.health + 1) 5) ∧
    ((hit_coin g).healthGranted = false → (hit_coin g).info.health = g.health) ∧
    (hit_coin g).enemiesSpawned = 1 ∧
    (run_coins 8 GameInfo.start).1 = ⟨8, 3, false⟩ ∧
    (run_coins 8 GameInfo.start).2 = 8 ∧
    (run_coins 9 GameInfo.start).1 = ⟨9, 4, false⟩ := by
  by_cases h : (g.points + 1) % HEALTH_MULTIPLE = 1 ∧ g.points + 1 ≠ 1
  · rw [hit_coin_eq, if_pos h]
    exact ⟨rfl, iff_of_true rfl h, fun _ => rfl, by simp, rfl,
      by decide, by decide, by decide⟩
  · rw [hit_coin_eq, if_neg h]
    exact ⟨rfl, iff_of_false (by simp) h, by simp, fun _ => rfl, rfl,
      by decide, by decide, by decide⟩

/-- Witness for C1: on the ninth pickup (score 8 → 9) the grant fires
and health saturates against the cap. -/
theorem hit_coin_amended_witness :
    (hit_coin ⟨8, 3, false⟩).info.health = min ((3 : ℤ) + 1) 5 :=
  (hit_coin_amended ⟨8, 3, false⟩).2.2.1 (by decide)

/-- C2: in one tick of `enemy_collision`, no `HitPlayer` event is
emitted while invincible, regardless of overlaps; while not invincible,
exactly one event is emitted when at least one pursuer overlaps the
player (first-match short-circuit) and none when no pursuer overlaps. -/
theorem enemy_collision_gating (inv : Bool) (ppos : Vec3) (es : List Vec3) :
    (inv = true → enemy_collision inv ppos es = 0) ∧
    (inv = false →
      ((∃ e ∈ es, collides ppos e PLAYER_RADIUS ENEMY_RADIUS) →
        enemy_collision inv ppos es = 1) ∧
      ((∀ e ∈ es, ¬ collides ppos e PLAYER_RADIUS ENEMY_RADIUS) →
        enemy_collision inv ppos es = 0)) := by
  constructor
  · intro h
    simp [enemy_collision, h]
  · intro h
    subst h
    constructor
    · intro hex
      have hs := (hitScan_eq_true_iff ppos es).mpr hex
      simp [enemy_collision, hs]
    · intro hall
      have hs : hitScan ppos es = false := by
        rcases Bool.eq_false_or_eq_true (hitScan ppos es) with ht | hf
        · rcases (hitScan_eq_true_iff ppos es).mp ht with ⟨e, he, hc⟩
          exact absurd hc (hall e he)
        · exact hf
      simp [enemy_collision, hs]

/-- Witness for C2: one pursuer sitting on the player, no
invincibility: exactly one hit event. -/
theorem enemy_collision_gating_witness :
    enemy_collision false Vec3.zero [Vec3.zero] = 1 :=
  ((enemy_collision_gating false Vec3.zero [Vec3.zero]).2 rfl).1
    ⟨Vec3.zero, List.mem_singleton_self _, by
      show distSq Vec3.zero Vec3.zero < (PLAYER_RADIUS + ENEMY_RADIUS) ^ 2
      simp only [distSq, Vec3.sub, Vec3.zero, Vec3.normSq, Vec3.dot,
        PLAYER_RADIUS, ENEMY_RADIUS]
      norm_num⟩

/-- C3: processing a `PlayerHit` event decrements health by 1, sets the
invincibility flag, resets the invincibility timer (elapsed back to 0,
so the full fixed duration remains), and replaces every pursuer by its
knocked-back copy unconditionally — also on the terminal hit, where the
`Menu` transition is requested exactly when the new health is `<= 0`
and `cleanup_game` then records the final score of the round. -/
theorem hit_player_rules (s : PlayState) :
    (hit_player s).1.info.health = s.info.health - 1 ∧
    (hit_player s).1.info.is_player_invincible = true ∧
    (hit_player s).1.timerElapsed = 0 ∧
    (hit_player s).1.enemies = s.enemies.map (knockback_enemy s.playerPos) ∧
    ((hit_player s).2 = true ↔ s.info.health - 1 ≤ 0) ∧
    (∀ prev : Option ℤ,
      cleanup_game (hit_player s).1.info prev = some s.info.points) := by
  refine ⟨rfl, rfl, rfl, rfl, ?_, fun prev => rfl⟩
  exact decide_eq_true_iff

/-- Witness for C3: a terminal hit at `health = 1` requests the menu
transition and records the score. -/
theorem hit_player_rules_witness :
    (hit_player ⟨⟨8, 1, false⟩, 0, Vec3.zero, Vec3.zero, [], ShakeState.start⟩).2 = true ∧
    cleanup_game
      (hit_player ⟨⟨8, 1, false⟩, 0, Vec3.zero, Vec3.zero, [], ShakeState.start⟩).1.info
      none = some 8 :=
  ⟨((hit_player_rules ⟨⟨8, 1, false⟩, 0, Vec3.zero, Vec3.zero, [], ShakeState.start⟩).2.2.2.2.1).mpr
      (by norm_num),
    (hit_player_rules ⟨⟨8, 1, false⟩, 0, Vec3.zero, Vec3.zero, [], ShakeState.start⟩).2.2.2.2.2 none⟩

/-- C4: for all `from`, `to` and `maxDelta ≥ 0`, `vec3_move_toward`
returns `to` exactly when the centre distance is at most `maxDelta`;
otherwise it returns the point exactly `maxDelta` away from `from`
along the `from → to` direction (`from + (maxDelta/|to-from|)·(to-from)`);
coincident `from = to` raises no error and returns the input
unchanged. -/
theorem vec3_move_toward_clamp (f t : Vec3) (d : ℝ) (hd : 0 ≤ d) :
    (vec3_move_toward f t d = t ↔ dist3 f t ≤ d) ∧
    (d < dist3 f t →
      dist3 f (vec3_move_toward f t d) = d ∧
      vec3_move_toward f t d =
        Vec3.add f (Vec3.smul (d / dist3 f t) (Vec3.sub t f))) ∧
    (f = t → vec3_move_toward f t d = f) := by
  have hfar_dist : ∀ hlt : d < dist3 f t,
      dist3 f (vec3_move_toward f t d) = d := by
    intro hlt
    have hfar : ¬ distSq f t ≤ d ^ 2 := by
      intro hle
      exact absurd ((dist3_le_iff hd f t).mpr hle) (not_le.mpr hlt)
    have hdpos : 0 < dist3 f t := lt_of_le_of_lt hd hlt
    have hn := dist3_eq_norm3_sub f t
    rw [move_toward_far hfar, dist3_eq_norm3_sub, sub_add_cancel3, norm3_smul, ← hn,
      abs_of_nonneg (div_nonneg hd (le_of_lt hdpos)),
      div_mul_cancel₀ d (ne_of_gt hdpos)]
  refine ⟨⟨?_, ?_⟩, fun hlt => ⟨hfar_dist hlt, ?_⟩, ?_⟩
  · intro heq
    by_contra hgt
    have hlt : d < dist3 f t := lt_of_not_le hgt
    have h1 : dist3 f (vec3_move_toward f t d) = d := hfar_dist hlt
    rw [heq] at h1
    exact absurd h1 (ne_of_lt hlt).symm
  · intro hle
    unfold vec3_move_toward
    rw [if_pos ((dist3_le_iff hd f t).mp hle)]
  · have hfar : ¬ distSq f t ≤ d ^ 2 := by
      intro hle
      exact absurd ((dist3_le_iff hd f t).mpr hle) (not_le.mpr hlt)
    exact move_toward_far hfar
  · intro heq
    subst heq
    unfold vec3_move_toward
    rw [if_pos (by rw [distSq_self]; positivity)]

/-- Witness for C4: `from = 0`, `to = (3,0,0)`, `maxDelta = 1`. -/
theorem vec3_move_toward_clamp_witness :
    (0 : ℝ) ≤ 1 ∧
    (vec3_move_toward Vec3.zero ⟨3, 0, 0⟩ 1 = ⟨3, 0, 0⟩ ↔
      dist3 Vec3.zero ⟨3, 0, 0⟩ ≤ 1) :=
  ⟨by norm_num, (vec3_move_toward_clamp Vec3.zero ⟨3, 0, 0⟩ 1 (by norm_num)).1⟩

/-- C5: on `PlayerHit` each pursuer not exactly on the player gets a
velocity impulse of magnitude
`HIT_KNOCKBACK · e^(HIT_DECAY_RATE · (distance - (PLAYER_RADIUS + ENEMY_RADIUS)))`
directed away from the player, added directly to its velocity with no
acceleration clamp; the decay rate is negative so farther pursuers get
a strictly smaller shove, and at zero separation (centre distance equal
to the radius sum) the shove equals the base magnitude exactly. -/
theorem knockback_rules (e : EnemyState) (ppos : Vec3) (h : e.pos ≠ ppos) :
    (knockback_enemy ppos e).vel =
      Vec3.add e.vel (Vec3.smul (knockback_speed (dist3 e.pos ppos))
        (normalize_or_zero (Vec3.sub e.pos ppos))) ∧
    norm3 (Vec3.smul (knockback_speed (dist3 e.pos ppos))
        (normalize_or_zero (Vec3.sub e.pos ppos))) =
      HIT_KNOCKBACK * Real.exp (HIT_DECAY_RATE *
        (dist3 e.pos ppos - (PLAYER_RADIUS + ENEMY_RADIUS))) ∧
    (∃ k : ℝ, 0 < k ∧
      Vec3.smul (knockback_speed (dist3 e.pos ppos))
          (normalize_or_zero (Vec3.sub e.pos ppos)) =
        Vec3.smul k (Vec3.sub e.pos ppos)) ∧
    HIT_DECAY_RATE < 0 ∧
    (∀ d1 d2 : ℝ, d1 < d2 → knockback_speed d2 < knockback_speed d1) ∧
    knockback_speed (PLAYER_RADIUS + ENEMY_RADIUS) = HIT_KNOCKBACK := by
  have hsub : Vec3.sub e.pos ppos ≠ Vec3.zero := by
    intro hz
    exact h ((sub_eq_zero_iff3 e.pos ppos).mp hz)
  have hnpos : 0 < norm3 (Vec3.sub e.pos ppos) := norm3_pos_of_ne_zero hsub
  have hspeed : ∀ d : ℝ, 0 < knockback_speed d := by
    intro d
    exact mul_pos (by norm_num [HIT_KNOCKBACK]) (Real.exp_pos _)
  refine ⟨rfl, ?_, ?_, by norm_num [HIT_DECAY_RATE], ?_, ?_⟩
  · rw [norm3_smul, norm3_normalize_or_zero_of_ne_zero hsub, mul_one,
      abs_of_pos (hspeed _)]
    rfl
  · refine ⟨knockback_speed (dist3 e.pos ppos) * (norm3 (Vec3.sub e.pos ppos))⁻¹,
      mul_pos (hspeed _) (inv_pos.mpr hnpos), ?_⟩
    have hns : (Vec3.sub e.pos ppos).normSq ≠ 0 := by
      intro hz
      exact hsub ((normSq_eq_zero_iff _).mp hz)
    unfold normalize_or_zero
    rw [if_neg hns, smul_smul3]
  · intro d1 d2 hlt
    unfold knockback_speed
    have hr : HIT_DECAY_RATE < 0 := by norm_num [HIT_DECAY_RATE]
    have hexp : HIT_DECAY_RATE * (d2 - (PLAYER_RADIUS + ENEMY_RADIUS)) <
        HIT_DECAY_RATE * (d1 - (PLAYER_RADIUS + ENEMY_RADIUS)) := by
      nlinarith
    exact mul_lt_mul_of_pos_left (Real.exp_lt_exp.mpr hexp)
      (by norm_num [HIT_KNOCKBACK])
  · unfold knockback_speed
    rw [sub_self, mul_zero, Real.exp_zero, mul_one]

/-- Witness for C5: pursuer at `(1,0,0)`, player at the origin. -/
theorem knockback_rules_witness :
    knockback_speed (PLAYER_RADIUS + ENEMY_RADIUS) = HIT_KNOCKBACK :=
  (knockback_rules ⟨⟨1, 0, 0⟩, Vec3.zero⟩ Vec3.zero
      (by simp [Vec3.zero, Vec3.mk.injEq])).2.2.2.2.2

/-- Reachable shake states have nonnegative trauma; while trauma is
zero the elapsed time and the camera offset are both zero. -/
theorem shake_invariant {s : ShakeState} (h : ShakeReachable s) :
    0 ≤ s.trauma ∧ (s.trauma ≤ 0 → s.time = 0 ∧ s.offX = 0 ∧ s.offY = 0) := by
  induction h with
  | start => exact ⟨le_refl 0, fun _ => ⟨rfl, rfl, rfl⟩⟩
  | tick s dt hs ih =>
      unfold screen_shake
      split_ifs with htr
      · exact ⟨ih.1, fun _ => ⟨rfl, (ih.2 htr).2.1, (ih.2 htr).2.2⟩⟩
      · push_neg at htr
        have hpos : 0 < lerp s.trauma 0 SCREEN_SHAKE_LERP := by
          unfold lerp SCREEN_SHAKE_LERP
          linarith
        exact ⟨le_of_lt hpos, fun hle => absurd hle (not_le.mpr hpos)⟩
  | hit s hs ih =>
      unfold add_trauma
      dsimp only
      have h70 : (0 : ℝ) < HIT_TRAUMA := by norm_num [HIT_TRAUMA]
      exact ⟨by linarith [ih.1], fun hle => absurd hle (not_le.mpr (by linarith [ih.1]))⟩

/-- C6: on each `screen_shake` tick from a reachable camera state, if
`trauma <= 0` the elapsed time is reset to 0 and the emitted camera
offset is zero; otherwise trauma decays by `lerp(trauma, 0, rate)` with
the constant per-tick blend factor, elapsed advances by `dt`, and the
offset equals `(trauma·sin(2π·fx·elapsed), trauma·sin(2π·fy·elapsed))`
with independent x/y frequencies (new trauma and elapsed values). -/
theorem screen_shake_tick_rules (s : ShakeState) (h : ShakeReachable s) (dt : ℝ) :
    (s.trauma ≤ 0 →
      (screen_shake s dt).time = 0 ∧ (screen_shake s dt).offX = 0 ∧
      (screen_shake s dt).offY = 0) ∧
    (0 < s.trauma →
      (screen_shake s dt).trauma = lerp s.trauma 0 SCREEN_SHAKE_LERP ∧
      (screen_shake s dt).time = s.time + dt ∧
      (screen_shake s dt).offX = (screen_shake s dt).trauma *
        Real.sin (2 * Real.pi * SCREEN_SHAKE_X_FREQUENCY * (screen_shake s dt).time) ∧
      (screen_shake s dt).offY = (screen_shake s dt).trauma *
        Real.sin (2 * Real.pi * SCREEN_SHAKE_Y_FREQUENCY * (screen_shake s dt).time)) := by
  constructor
  · intro hle
    have hinv := (shake_invariant h).2 hle
    unfold screen_shake
    rw [if_pos hle]
    exact ⟨rfl, hinv.2.1, hinv.2.2⟩
  · intro hpos
    unfold screen_shake
    rw [if_neg (not_le.mpr hpos)]
    exact ⟨rfl, rfl, rfl, rfl⟩

/-- Witness for C6: a tick from the initial camera state (trauma 0)
keeps the offset at zero and resets the elapsed time. -/
theorem screen_shake_tick_rules_witness :
    (screen_shake ShakeState.start 1).time = 0 ∧
    (screen_shake ShakeState.start 1).offX = 0 ∧
    (screen_shake ShakeState.start 1).offY = 0 :=
  (screen_shake_tick_rules ShakeState.start ShakeReachable.start 1).1 (le_refl 0)

/-- C7: a pursuer's tracking target is the interception point
`player position + player velocity · future_prediction`; a
wrap-following pursuer replaces it, per axis, by the point reflected
across the boundary by one play-area length whenever the straight-line
delta exceeds half the play-area extent on that axis — in the direction
that strictly shortens the path — while a non-wrapping pursuer uses the
raw interception point. -/
theorem track_target_rules (epos ppos pvel : Vec3) (fp width height : ℝ)
    (hw : 0 < width) (hh : 0 < height) :
    track_target false epos ppos pvel fp width height =
      interception_point ppos pvel fp ∧
    (|(interception_point ppos pvel fp).x - epos.x| > width / 2 →
      (track_target true epos ppos pvel fp width height).x =
        (if (interception_point ppos pvel fp).x - epos.x < 0 then
          (interception_point ppos pvel fp).x + width
        else (interception_point ppos pvel fp).x - width) ∧
      |(track_target true epos ppos pvel fp width height).x - epos.x| <
        |(interception_point ppos pvel fp).x - epos.x|) ∧
    (¬ |(interception_point ppos pvel fp).x - epos.x| > width / 2 →
      (track_target true epos ppos pvel fp width height).x =
        (interception_point ppos pvel fp).x) ∧
    (|(interception_point ppos pvel fp).y - epos.y| > height / 2 →
      (track_target true epos ppos pvel fp width height).y =
        (if (interception_point ppos pvel fp).y - epos.y < 0 then
          (interception_point ppos pvel fp).y + height
        else (interception_point ppos pvel fp).y - height) ∧
      |(track_target true epos ppos pvel fp width height).y - epos.y| <
        |(interception_point ppos pvel fp).y - epos.y|) ∧
    (¬ |(interception_point ppos pvel fp).y - epos.y| > height / 2 →
      (track_target true epos ppos pvel fp width height).y =
        (interception_point ppos pvel fp).y) := by
  set tp := interception_point ppos pvel fp with htp
  have htrue : track_target true epos ppos pvel fp width height =
      wraparound_tracking_position epos tp width height := rfl
  refine ⟨rfl, ?_, ?_, ?_, ?_⟩
  · intro hfarx
    rw [htrue]
    unfold wraparound_tracking_position
    dsimp only
    rw [if_pos hfarx]
    refine ⟨rfl, ?_⟩
    split_ifs with hneg
    · have h2 : -(tp.x - epos.x) > width / 2 := by rwa [abs_of_neg hneg] at hfarx
      rw [abs_of_neg hneg, abs_lt]
      constructor <;> linarith
    · have hge : 0 ≤ tp.x - epos.x := not_lt.mp hneg
      have h2 : tp.x - epos.x > width / 2 := by rwa [abs_of_nonneg hge] at hfarx
      rw [abs_of_nonneg hge, abs_lt]
      constructor <;> linarith
  · intro hnear
    rw [htrue]
    unfold wraparound_tracking_position
    dsimp only
    rw [if_neg hnear]
  · intro hfary
    rw [htrue]
    unfold wraparound_tracking_position
    dsimp only
    rw [if_pos hfary]
    refine ⟨rfl, ?_⟩
    split_ifs with hneg
    · have h2 : -(tp.y - epos.y) > height / 2 := by rwa [abs_of_neg hneg] at hfary
      rw [abs_of_neg hneg, abs_lt]
      constructor <;> linarith
    · have hge : 0 ≤ tp.y - epos.y := not_lt.mp hneg
      have h2 : tp.y - epos.y > height / 2 := by rwa [abs_of_nonneg hge] at hfary
      rw [abs_of_nonneg hge, abs_lt]
      constructor <;> linarith
  · intro hneary
    rw [htrue]
    unfold wraparound_tracking_position
    dsimp only
    rw [if_neg hneary]

/-- Witness for C7: pursuer at the origin, stationary player at
`(80, 0, 0)` in a `100 × 100` play area: the x delta 80 exceeds 50, so
the wrapped target is `80 - 100 = -20`. -/
theorem track_target_rules_witness :
    (track_target true Vec3.zero ⟨80, 0, 0⟩ Vec3.zero 0 100 100).x = 80 - 100 :=
  by
  have h := (track_target_rules Vec3.zero ⟨80, 0, 0⟩ Vec3.zero 0 100 100
    (by norm_num) (by norm_num)).2.1
  have hfar : |(interception_point ⟨80, 0, 0⟩ Vec3.zero 0).x - Vec3.zero.x| >
      (100 : ℝ) / 2 := by
    simp only [interception_point, Vec3.add, Vec3.smul, Vec3.zero]
    norm_num
  have hx := (h hfar).1
  rw [hx]
  simp only [interception_point, Vec3.add, Vec3.smul, Vec3.zero]
  norm_num

/-- C8: two entities collide iff the squared centre distance is
strictly below the squared radius sum; collision is symmetric in the
pair, and at centre distance exactly `r1 + r2` there is no collision. -/
theorem collides_rules (p q : Vec3) (r1 r2 : ℝ) :
    (collides p q r1 r2 ↔ distSq p q < (r1 + r2) ^ 2) ∧
    (collides p q r1 r2 ↔ collides q p r2 r1) ∧
    (dist3 p q = r1 + r2 → ¬ collides p q r1 r2) := by
  refine ⟨Iff.rfl, ?_, ?_⟩
  · unfold collides
    rw [distSq_comm, add_comm r2 r1]
  · intro hdist
    unfold collides
    have heq : distSq p q = (r1 + r2) ^ 2 := by
      rw [← hdist]
      exact (dist3_sq p q).symm
    rw [heq]
    exact lt_irrefl _

/-- Witness for C8: two touching circles (centre distance 30 with radii
16 and 14) do not collide. -/
theorem collides_rules_witness :
    ¬ collides Vec3.zero ⟨30, 0, 0⟩ 16 14 :=
  (collides_rules Vec3.zero ⟨30, 0, 0⟩ 16 14).2.2 (by
    show Real.sqrt (distSq Vec3.zero ⟨30, 0, 0⟩) = 16 + 14
    have : distSq Vec3.zero ⟨30, 0, 0⟩ = 900 := by
      simp only [distSq, Vec3.sub, Vec3.zero, Vec3.normSq, Vec3.dot]
      norm_num
    rw [this, show (900 : ℝ) = 30 ^ 2 by norm_num, Real.sqrt_sq (by norm_num)]
    norm_num)

/-- One axis of the `wraparound` correction with the low-side test
first (the x axis shape) is idempotent. -/
theorem wrap_axis_low_idem (L R x : ℝ) :
    (if (if x < L then R else if x > R then L else x) < L then R
     else if (if x < L then R else if x > R then L else x) > R then L
     else (if x < L then R else if x > R then L else x)) =
    (if x < L then R else if x > R then L else x) := by
  split_ifs <;> linarith

/-- One axis of the `wraparound` correction with the high-side test
first (the y axis shape) is idempotent. -/
theorem wrap_axis_high_idem (T B y : ℝ) :
    (if (if y > T then B else if y < B then T else y) > T then B
     else if (if y > T then B else if y < B then T else y) < B then T
     else (if y > T then B else if y < B then T else y)) =
    (if y > T then B else if y < B then T else y) := by
  split_ifs <;> linarith

/-- C9: for every position, play-area size and per-entity wrap radius,
applying the `wraparound` boundary correction twice yields the same
result as applying it once. -/
theorem wraparound_idem (t : Vec3) (radius width height : ℝ) :
    wraparound (wraparound t radius width height) radius width height =
      wraparound t radius width height := by
  unfold wraparound
  dsimp only
  rw [Vec3.mk.injEq]
  exact ⟨wrap_axis_low_idem _ _ _, wrap_axis_high_idem _ _ _, rfl⟩

/-- Writing `from + c·(to - from)` as the convex combination
`(1-c)·from + c·to`. -/
theorem add_smul_sub_eq_comb (v t : Vec3) (c : ℝ) :
    Vec3.add v (Vec3.smul c (Vec3.sub t v)) =
      Vec3.add (Vec3.smul (1 - c) v) (Vec3.smul c t) := by
  rcases v with ⟨vx, vy, vz⟩
  rcases t with ⟨tx, ty, tz⟩
  simp only [Vec3.add, Vec3.sub, Vec3.smul, Vec3.mk.injEq]
  refine ⟨by ring, by ring, by ring⟩

/-- The move-toward clamp never leaves a ball (around the origin) that
contains both its endpoints: the far branch is a convex combination. -/
theorem vec3_move_toward_norm_le {v t : Vec3} {d S : ℝ} (hd : 0 ≤ d)
    (hv : norm3 v ≤ S) (ht : norm3 t ≤ S) :
    norm3 (vec3_move_toward v t d) ≤ S := by
  by_cases hfar : distSq v t ≤ d ^ 2
  · unfold vec3_move_toward
    rw [if_pos hfar]
    exact ht
  · rw [move_toward_far hfar]
    have hdsq : d ^ 2 < distSq v t := lt_of_not_le hfar
    have hnpos : 0 < dist3 v t := by
      rw [dist3]
      exact Real.sqrt_pos.mpr (lt_of_le_of_lt (sq_nonneg d) hdsq)
    have hdle : d ≤ dist3 v t := by
      nlinarith [dist3_sq v t, dist3_nonneg v t]
    have hc0 : 0 ≤ d / dist3 v t := div_nonneg hd (le_of_lt hnpos)
    have hc1 : d / dist3 v t ≤ 1 := (div_le_one hnpos).mpr hdle
    have h0v := norm3_nonneg v
    have h0t := norm3_nonneg t
    calc norm3 (Vec3.add v (Vec3.smul (d / dist3 v t) (Vec3.sub t v)))
        = norm3 (Vec3.add (Vec3.smul (1 - d / dist3 v t) v)
            (Vec3.smul (d / dist3 v t) t)) := by rw [add_smul_sub_eq_comb]
      _ ≤ norm3 (Vec3.smul (1 - d / dist3 v t) v) +
            norm3 (Vec3.smul (d / dist3 v t) t) := norm3_add_le _ _
      _ = (1 - d / dist3 v t) * norm3 v + (d / dist3 v t) * norm3 t := by
            rw [norm3_smul, norm3_smul, abs_of_nonneg (by linarith),
              abs_of_nonneg hc0]
      _ ≤ (1 - d / dist3 v t) * S + (d / dist3 v t) * S := by nlinarith
      _ = S := by ring

/-- C10: the player's speed never exceeds `PLAYER_MAX_SPEED` (300):
every reachable player velocity (starting from zero, updated only by
`move_player` with nonnegative frame deltas) has length at most 300;
the per-tick target has magnitude at most 300 (normalised-or-zero input
direction times the max speed); and `hit_player` — the only knockback
site — leaves the player's velocity untouched. -/
theorem player_speed_bound :
    (∀ v : Vec3, PlayerVelReachable v → norm3 v ≤ PLAYER_MAX_SPEED) ∧
    (∀ up down lft rgt : Bool,
      norm3 (Vec3.smul PLAYER_MAX_SPEED (get_direction up down lft rgt)) ≤
        PLAYER_MAX_SPEED) ∧
    (∀ s : PlayState, (hit_player s).1.playerVel = s.playerVel) := by
  have htarget : ∀ up down lft rgt : Bool,
      norm3 (Vec3.smul PLAYER_MAX_SPEED (get_direction up down lft rgt)) ≤
        PLAYER_MAX_SPEED := by
    intro u dn l r
    rw [norm3_smul]
    have h1 : norm3 (get_direction u dn l r) ≤ 1 := by
      unfold get_direction
      exact norm3_normalize_or_zero_le_one _
    have h0 := norm3_nonneg (get_direction u dn l r)
    rw [abs_of_nonneg (by norm_num [PLAYER_MAX_SPEED] : (0:ℝ) ≤ PLAYER_MAX_SPEED)]
    nlinarith [show (0:ℝ) < PLAYER_MAX_SPEED by norm_num [PLAYER_MAX_SPEED]]
  refine ⟨?_, htarget, fun s => rfl⟩
  intro v hv
  induction hv with
  | spawn =>
      rw [norm3_zero]
      norm_num [PLAYER_MAX_SPEED]
  | tick v up down lft rgt dt hdt hv ih =>
      unfold move_player_velocity
      exact vec3_move_toward_norm_le
        (mul_nonneg (by norm_num [PLAYER_ACCEL]) hdt) ih (htarget up down lft rgt)

/-- Witness for C10: the spawn velocity is within the speed cap. -/
theorem player_speed_bound_witness : norm3 Vec3.zero ≤ PLAYER_MAX_SPEED :=
  player_speed_bound.1 Vec3.zero PlayerVelReachable.spawn

end

end Gorbulet
